import Mathlib

/-!
Shallow embedding of the rickroll compiler core (`src/compiler.rs`).

Source text and lines are modelled as `List Char` (Rust byte indices coincide
with character indices on the ASCII prefixes and separators the compiler
slices at).  The regex character class `\w` is modelled as ASCII alphanumeric
or underscore, and `.` as any character other than `'\n'`, matching the
default semantics of the `regex` crate on the ASCII inputs of interest.

The expression lexer (`lexer.rs`), the `Scope` type (`util.rs`) and the
`Error` type (`error.rs`) are not part of the given sources; the compiler
only uses them through a small interface, which is modelled from the spec
below (each such definition is marked).
-/

namespace Rickroll

/-- Word character: the regex class `\w` used by the `Let` and `Assign`
grammars, modelled as ASCII alphanumeric or underscore. -/
def isWordChar (c : Char) : Bool := c.isAlphanum || c == '_'

/-- The characters `Compiler::new` treats as line terminators. -/
def isLineTerm (c : Char) : Bool := c == '\r' || c == '\n'

/-- Rust `str::trim` on a character list (whitespace stripped from both
ends). -/
def trimChars (s : List Char) : List Char :=
  ((s.dropWhile Char.isWhitespace).reverse.dropWhile Char.isWhitespace).reverse

/-- The accumulator loop of `Compiler::new`: `cur` holds the characters of
the current segment in reverse; every `'\r'` or `'\n'` pushes the segment,
and the final segment is pushed after the loop. -/
def splitLinesAux (cur : List Char) : List Char → List (List Char)
  | [] => [cur.reverse]
  | c :: rest =>
    if isLineTerm c then cur.reverse :: splitLinesAux [] rest
    else splitLinesAux (c :: cur) rest

/-- Line splitting performed by `Compiler::new` on the raw input text. -/
def splitLines (txt : List Char) : List (List Char) := splitLinesAux [] txt

/-- Modelled from the spec: `Token` is "an opaque unit produced by the
external expression lexer"; the core never inspects it, so it is modelled
as a wrapper around the source characters the lexer consumed. -/
structure Token where
  raw : List Char
deriving DecidableEq, Repr

/-- Modelled from the spec: error kinds are `SyntaxError`, `NameError`, "or
a kind surfaced from the expression lexer" (opaque to the core). -/
inductive ErrorType where
  | SyntaxError
  | NameError
  | Other (kind : List Char)
deriving DecidableEq, Repr

/-- Modelled from the spec (`error.rs` is not among the given sources): an
error carries a kind, a message, and "an ordered list of 1-based line
numbers from innermost failure to outermost wrapping frame". -/
structure Error where
  etype : ErrorType
  msg : List Char
  traceback : List Nat
deriving DecidableEq, Repr

/-- Modelled from the spec: `Error::new` builds an error whose traceback
holds just the given originating line (when present). -/
def Error.new (t : ErrorType) (m : List Char) (line : Option Nat) : Error :=
  ⟨t, m, line.toList⟩

/-- Modelled from the spec: `Error::traceback` wraps an error in one further
traceback frame (appended outermost). -/
def Error.withTraceback (e : Error) (line : Option Nat) : Error :=
  { e with traceback := e.traceback ++ line.toList }

/-- Modelled from the spec (`util.rs` is not among the given sources): a
`Scope` is a set of declared variable names; insertion order irrelevant. -/
abbrev Scope := List (List Char)

/-- Modelled from the spec: the empty scope (`Scope::new`). -/
def Scope.new : Scope := []

/-- Modelled from the spec: scope membership test (`Scope::has_var`). -/
def Scope.has_var (s : Scope) (n : List Char) : Bool := s.contains n

/-- Modelled from the spec: add a declared name (`Scope::add_var`). -/
def Scope.add_var (s : Scope) (n : List Char) : Scope := n :: s

/-- Modelled from the spec: the external expression lexer interface
`lex(expression, scope snapshot) -> ordered sequence of Token | Error`.
The compiler is parametric in it. -/
abbrev Lexer := List Char → Scope → Except Error (List Token)

/-- The compiled output unit (`Instruction`), as used by `compiler.rs` and
described in the spec. -/
inductive Instruction where
  | Put (tokens : List Token)
  | Let (name : List Char)
  | Set (name : List Char) (tokens : List Token)
  | End
deriving DecidableEq, Repr

/-- The three statement grammars, in the order `EnumIter` yields them. -/
inductive Statement where
  | Say
  | Let
  | Assign
deriving DecidableEq, Repr

/-- The 16-character literal `"Never gonna say "`. -/
def sayPre : List Char := "Never gonna say ".toList

/-- The 16-character literal `"Never gonna let "`. -/
def letPre : List Char := "Never gonna let ".toList

/-- The 5-character literal `" down"`. -/
def letSuf : List Char := " down".toList

/-- The 17-character literal `"Never gonna give "`. -/
def givePre : List Char := "Never gonna give ".toList

/-- Strip an expected literal from the front of a string: `some rest` iff
the string is the literal followed by `rest`. -/
def dropPre : List Char → List Char → Option (List Char)
  | [], s => some s
  | _ :: _, [] => none
  | p :: ps, c :: cs => if c = p then dropPre ps cs else none

/-- The regex `^Never gonna say .+$`: literal prefix then one or more
characters other than `'\n'`, anchored to the whole line. -/
def matchesSay (s : List Char) : Bool :=
  match dropPre sayPre s with
  | some rest => !rest.isEmpty && rest.all (fun c => c != '\n')
  | none => false

/-- The regex `^Never gonna let \w+ down$`: prefix, one or more word
characters, then the literal `" down"`, anchored to the whole line.  Since
a word character run cannot contain the space that starts `" down"`, the
match is equivalent to taking the maximal word-character run. -/
def matchesLet (s : List Char) : Bool :=
  match dropPre letPre s with
  | some rest =>
    !(rest.takeWhile isWordChar).isEmpty && rest.dropWhile isWordChar == letSuf
  | none => false

/-- The regex `^Never gonna give \w+ .+$`: prefix, one or more word
characters, a space, then one or more characters other than `'\n'`.  As the
space cannot belong to the word run, the match is equivalent to taking the
maximal word-character run and requiring a space right after it. -/
def matchesAssign (s : List Char) : Bool :=
  match dropPre givePre s with
  | some rest =>
    !(rest.takeWhile isWordChar).isEmpty &&
      match rest.dropWhile isWordChar with
      | ' ' :: e => !e.isEmpty && e.all (fun c => c != '\n')
      | _ => false
  | none => false

/-- `Statement::matches`: dispatch to the grammar's regex. -/
def Statement.matches : Statement → List Char → Bool
  | .Say, s => matchesSay s
  | .Let, s => matchesLet s
  | .Assign, s => matchesAssign s

/-- The iteration order of `Statement::iter()` (derive `EnumIter`). -/
def Statement.iterAll : List Statement := [.Say, .Let, .Assign]

/-- `Statement::match_statement`: the first grammar in iteration order that
matches the line, if any. -/
def matchStatement (s : List Char) : Option Statement :=
  Statement.iterAll.find? (fun st => st.matches s)

/-- Rust `slice.find(' ')`: index of the first space character. -/
def findSpace : List Char → Option Nat
  | [] => none
  | c :: rest => if c = ' ' then some 0 else (findSpace rest).map (· + 1)

/-- The message of the `SyntaxError`s raised by `Compiler::compile`. -/
def illegalMsg : List Char := "Illegal statement".toList

/-- The message of the `NameError` raised on re-declaration. -/
def nameErrMsg (n : List Char) : List Char :=
  "Variable ".toList ++ n ++ " already exists in the current scope".toList

/-- `Compiler::wrap_check`: wrap a possible error in a traceback frame
carrying the current 1-based line number `ptr + 1`. -/
def wrapCheck {α : Type} (ptr : Nat) : Except Error α → Except Error α
  | .error e => .error (e.withTraceback (some (ptr + 1)))
  | .ok v => .ok v

/-- The `while self.ptr < self.raw.len()` loop of `Compiler::compile`,
recursing over the remaining lines while tracking the cursor `ptr` and the
global scope.  The instructions pushed by the Rust loop are produced here by
consing onto the compilation of the remaining lines, which yields the same
list on success and the same error on failure. -/
def compileLoop (lex : Lexer) :
    List (List Char) → Nat → Scope → Except Error (List (Nat × Instruction))
  | [], _, _ => .ok []
  | ln :: rest, ptr, scope =>
    let curln := trimChars ln
    if curln.isEmpty then
      compileLoop lex rest (ptr + 1) scope
    else
      match matchStatement curln with
      | none => .error (Error.new .SyntaxError illegalMsg (some (ptr + 1)))
      | some .Say =>
        match wrapCheck ptr (lex (curln.drop 16) scope) with
        | .error e => .error e
        | .ok tokens =>
          (compileLoop lex rest (ptr + 1) scope).map
            (fun tail => (ptr + 1, Instruction.Put tokens) :: tail)
      | some .Let =>
        let varname := (curln.drop 16).take (curln.length - 21)
        if scope.has_var varname then
          .error (Error.new .NameError (nameErrMsg varname) (some (ptr + 1)))
        else
          (compileLoop lex rest (ptr + 1) (scope.add_var varname)).map
            (fun tail => (ptr + 1, Instruction.Let varname) :: tail)
      | some .Assign =>
        let slice := curln.drop 17
        match findSpace slice with
        | some index =>
          let varname := trimChars (slice.take index)
          let expr := slice.drop (index + 1)
          match wrapCheck ptr (lex expr scope) with
          | .error e => .error e
          | .ok tokens =>
            (compileLoop lex rest (ptr + 1) scope).map
              (fun tail => (ptr + 1, Instruction.Set varname tokens) :: tail)
        | none => .error (Error.new .SyntaxError illegalMsg (some (ptr + 1)))

/-- `Compiler::compile` run on a raw source text: split into lines, run the
loop from cursor 0 with an empty scope, and append the `(0, End())`
sentinel on success. -/
def compile (lex : Lexer) (txt : List Char) : Except Error (List (Nat × Instruction)) :=
  (compileLoop lex (splitLines txt) 0 Scope.new).map
    (fun compiled => compiled ++ [(0, Instruction.End)])

/-- A lexer instance used for concrete evaluations: it always succeeds,
wrapping the expression text in a single token. -/
def demoLex : Lexer := fun e _ => .ok [⟨e⟩]

/-- A lexer instance used for concrete evaluations: it always fails with a
lexer-kind error whose traceback is empty. -/
def failLex : Lexer := fun _ _ => .error ⟨.Other "lex".toList, "boom".toList, []⟩

/-- Stripping an expected literal succeeds exactly on strings that extend
the literal, and returns the extension. -/
theorem dropPre_eq_some {p s r : List Char} : dropPre p s = some r ↔ s = p ++ r := by
  induction p generalizing s with
  | nil => simp [dropPre]
  | cons a ps ih =>
    cases s with
    | nil => simp [dropPre]
    | cons c cs =>
      by_cases h : c = a
      · subst h; simp [dropPre, ih]
      · simp [dropPre, h]

/-- Splitting a list at a distinguished element right after a run on which
the predicate holds: `takeWhile` returns the run and `dropWhile` the rest. -/
theorem takeWhile_append_not {p : Char → Bool} (w t : List Char) (a : Char)
    (hw : ∀ c ∈ w, p c = true) (ha : p a = false) :
    (w ++ a :: t).takeWhile p = w ∧ (w ++ a :: t).dropWhile p = a :: t := by
  induction w with
  | nil => simp [List.takeWhile_cons, List.dropWhile_cons, ha]
  | cons c w ih =>
    have hc : p c = true := hw c (by simp)
    have ih' := ih (fun x hx => hw x (by simp [hx]))
    simp [List.takeWhile_cons, List.dropWhile_cons, hc, ih'.1, ih'.2]

/-- `Except.map` yields `ok` exactly when its argument did. -/
theorem except_map_eq_ok {α β : Type} {f : α → β} {x : Except Error α} {b : β} :
    x.map f = .ok b ↔ ∃ a, x = .ok a ∧ f a = b := by
  cases x <;> simp [Except.map]

/-- `Except.map` yields an error exactly when its argument did, unchanged. -/
theorem except_map_eq_error {α β : Type} {f : α → β} {x : Except Error α} {e : Error} :
    x.map f = .error e ↔ x = .error e := by
  cases x <;> simp [Except.map]

/-- The first space after a run of word characters sits right after the
run. -/
theorem findSpace_append_space {w e : List Char}
    (hw : ∀ c ∈ w, isWordChar c = true) :
    findSpace (w ++ ' ' :: e) = some w.length := by
  induction w with
  | nil => simp [findSpace]
  | cons c w ih =>
    have hc : isWordChar c = true := hw c (by simp)
    have hcne : ¬(c = ' ') := by
      intro h; subst h; exact absurd hc (by decide)
    simp [findSpace, hcne, ih (fun x hx => hw x (by simp [hx]))]

/-- A found space index is within bounds. -/
theorem findSpace_lt_length {l : List Char} {i : Nat}
    (h : findSpace l = some i) : i < l.length := by
  induction l generalizing i with
  | nil => simp [findSpace] at h
  | cons c rest ih =>
    by_cases hc : c = ' '
    · simp [findSpace, hc] at h
      simp only [List.length_cons]
      omega
    · simp [findSpace, hc, Option.map_eq_some'] at h
      obtain ⟨j, hj, hji⟩ := h
      have := ih hj
      simp only [List.length_cons]
      omega

/-- The `Say` grammar holds exactly on lines of the shape the spec gives:
the literal prefix followed by a non-empty remainder free of `'\n'`. -/
theorem matchesSay_iff {s : List Char} :
    matchesSay s = true ↔ ∃ r, s = sayPre ++ r ∧ r ≠ [] ∧ ∀ c ∈ r, c ≠ '\n' := by
  constructor
  · intro h
    unfold matchesSay at h
    cases hd : dropPre sayPre s with
    | none => rw [hd] at h; cases h
    | some rest =>
      rw [hd] at h
      simp only [Bool.and_eq_true, Bool.not_eq_true', List.all_eq_true] at h
      refine ⟨rest, dropPre_eq_some.mp hd, ?_, ?_⟩
      · intro hnil; rw [hnil] at h; simp at h
      · intro c hc
        have := h.2 c hc
        simpa using this
  · rintro ⟨r, rfl, hne, hall⟩
    unfold matchesSay
    rw [dropPre_eq_some.mpr rfl]
    simp only [Bool.and_eq_true, Bool.not_eq_true', List.all_eq_true]
    refine ⟨by simpa [List.isEmpty_iff] using hne, fun c hc => by simpa using hall c hc⟩

/-- The `Let` grammar holds exactly on lines of the shape the spec gives:
prefix, a non-empty run of word characters, then the literal suffix. -/
theorem matchesLet_iff {s : List Char} :
    matchesLet s = true ↔
      ∃ w, s = letPre ++ w ++ letSuf ∧ w ≠ [] ∧ ∀ c ∈ w, isWordChar c = true := by
  constructor
  · intro h
    unfold matchesLet at h
    cases hd : dropPre letPre s with
    | none => rw [hd] at h; cases h
    | some rest =>
      rw [hd] at h
      simp only [Bool.and_eq_true, Bool.not_eq_true', beq_iff_eq] at h
      obtain ⟨hne, hdw⟩ := h
      refine ⟨rest.takeWhile isWordChar, ?_, ?_, ?_⟩
      · rw [dropPre_eq_some.mp hd, List.append_assoc, ← hdw,
          List.takeWhile_append_dropWhile]
      · simpa [List.isEmpty_iff] using hne
      · intro c hc; exact List.mem_takeWhile_imp hc
  · rintro ⟨w, rfl, hne, hw⟩
    have hsplit := takeWhile_append_not w ("down".toList) ' ' hw (by decide)
    unfold matchesLet
    rw [List.append_assoc, dropPre_eq_some.mpr rfl]
    show (!((w ++ letSuf).takeWhile isWordChar).isEmpty &&
      ((w ++ letSuf).dropWhile isWordChar == letSuf)) = true
    rw [show letSuf = ' ' :: "down".toList from rfl, hsplit.1, hsplit.2]
    simpa [List.isEmpty_iff] using hne

/-- The `Assign` grammar holds exactly on lines of the shape the spec
gives: prefix, a non-empty run of word characters, a space, then a
non-empty remainder free of `'\n'`. -/
theorem matchesAssign_iff {s : List Char} :
    matchesAssign s = true ↔
      ∃ w r, s = givePre ++ w ++ ' ' :: r ∧ w ≠ [] ∧
        (∀ c ∈ w, isWordChar c = true) ∧ r ≠ [] ∧ ∀ c ∈ r, c ≠ '\n' := by
  constructor
  · intro h
    unfold matchesAssign at h
    cases hd : dropPre givePre s with
    | none => rw [hd] at h; cases h
    | some rest =>
      rw [hd] at h
      simp only [Bool.and_eq_true, Bool.not_eq_true'] at h
      obtain ⟨hne, hm⟩ := h
      cases hdw : rest.dropWhile isWordChar with
      | nil => rw [hdw] at hm; cases hm
      | cons a e =>
        rw [hdw] at hm
        by_cases ha : a = ' '
        · subst ha
          simp only [Bool.and_eq_true, Bool.not_eq_true', List.all_eq_true] at hm
          refine ⟨rest.takeWhile isWordChar, e, ?_, ?_, ?_, ?_, ?_⟩
          · rw [dropPre_eq_some.mp hd, List.append_assoc, ← hdw,
              List.takeWhile_append_dropWhile]
          · simpa [List.isEmpty_iff] using hne
          · intro c hc; exact List.mem_takeWhile_imp hc
          · intro hnil; rw [hnil] at hm; simp at hm
          · intro c hc; simpa using hm.2 c hc
        · exact absurd hm (by simp [ha])
  · rintro ⟨w, r, rfl, hne, hw, hrne, hall⟩
    have hsplit := takeWhile_append_not w r ' ' hw (by decide)
    unfold matchesAssign
    rw [List.append_assoc, dropPre_eq_some.mpr rfl]
    show (!((w ++ ' ' :: r).takeWhile isWordChar).isEmpty &&
      (match (w ++ ' ' :: r).dropWhile isWordChar with
       | ' ' :: e => !e.isEmpty && e.all (fun c => c != '\n')
       | _ => false)) = true
    rw [hsplit.1, hsplit.2]
    show (!w.isEmpty && (!r.isEmpty && r.all (fun c => c != '\n'))) = true
    simp only [Bool.and_eq_true, Bool.not_eq_true', List.all_eq_true]
    refine ⟨by simpa [List.isEmpty_iff] using hne,
      by simpa [List.isEmpty_iff] using hrne,
      fun c hc => by simpa using hall c hc⟩

/-- `match_statement` tries the three grammars in declaration order and
returns the first that matches. -/
theorem matchStatement_eq (s : List Char) :
    matchStatement s =
      if matchesSay s then some Statement.Say
      else if matchesLet s then some Statement.Let
      else if matchesAssign s then some Statement.Assign
      else none := by
  unfold matchStatement Statement.iterAll
  cases h1 : matchesSay s <;> cases h2 : matchesLet s <;> cases h3 : matchesAssign s <;>
    simp [List.find?, Statement.matches, h1, h2, h3]

/-- A line that matches some statement grammar is non-empty. -/
theorem matches_ne_nil {st : Statement} {s : List Char}
    (h : st.matches s = true) : s ≠ [] := by
  intro hnil
  subst hnil
  cases st <;> exact absurd h (by decide)

/-- A classified line is non-empty. -/
theorem matchStatement_some_ne_nil {s : List Char} {st : Statement}
    (h : matchStatement s = some st) : s ≠ [] := by
  intro hnil
  subst hnil
  rw [matchStatement_eq] at h
  simp only [show matchesSay [] = false from rfl,
    show matchesLet [] = false from rfl,
    show matchesAssign [] = false from rfl] at h
  cases h

/-- Step: a line that trims to nothing produces no instruction and no
error; the cursor advances. -/
theorem compileLoop_blank {ln : List Char} (h : trimChars ln = [])
    (lex : Lexer) (rest : List (List Char)) (ptr : Nat) (scope : Scope) :
    compileLoop lex (ln :: rest) ptr scope = compileLoop lex rest (ptr + 1) scope := by
  simp [compileLoop, h]

/-- Step: a non-blank line no grammar matches raises `SyntaxError` at the
current 1-based line. -/
theorem compileLoop_illegal {ln : List Char}
    (hm : matchStatement (trimChars ln) = none) (hne : trimChars ln ≠ [])
    (lex : Lexer) (rest : List (List Char)) (ptr : Nat) (scope : Scope) :
    compileLoop lex (ln :: rest) ptr scope =
      .error (Error.new .SyntaxError illegalMsg (some (ptr + 1))) := by
  simp [compileLoop, List.isEmpty_iff, hne, hm]

/-- Step: a `Say` line whose expression lexes pushes a `Put` instruction. -/
theorem compileLoop_say_ok {ln : List Char} {tokens : List Token}
    {lex : Lexer} {scope : Scope}
    (hm : matchStatement (trimChars ln) = some .Say)
    (hlex : lex ((trimChars ln).drop 16) scope = .ok tokens)
    (rest : List (List Char)) (ptr : Nat) :
    compileLoop lex (ln :: rest) ptr scope =
      (compileLoop lex rest (ptr + 1) scope).map
        (fun tail => (ptr + 1, Instruction.Put tokens) :: tail) := by
  have hne := matchStatement_some_ne_nil hm
  simp [compileLoop, List.isEmpty_iff, hne, hm, hlex, wrapCheck]

/-- Step: a `Say` line whose expression fails to lex propagates the lexer's
error wrapped in one traceback frame. -/
theorem compileLoop_say_err {ln : List Char} {e : Error}
    {lex : Lexer} {scope : Scope}
    (hm : matchStatement (trimChars ln) = some .Say)
    (hlex : lex ((trimChars ln).drop 16) scope = .error e)
    (rest : List (List Char)) (ptr : Nat) :
    compileLoop lex (ln :: rest) ptr scope =
      .error (e.withTraceback (some (ptr + 1))) := by
  have hne := matchStatement_some_ne_nil hm
  simp [compileLoop, List.isEmpty_iff, hne, hm, hlex, wrapCheck]

/-- Step: a `Let` line whose name is already in scope raises `NameError` at
the current 1-based line. -/
theorem compileLoop_let_dup {ln : List Char} {scope : Scope}
    (hm : matchStatement (trimChars ln) = some .Let)
    (hv : scope.has_var
      (((trimChars ln).drop 16).take ((trimChars ln).length - 21)) = true)
    (lex : Lexer) (rest : List (List Char)) (ptr : Nat) :
    compileLoop lex (ln :: rest) ptr scope =
      .error (Error.new .NameError
        (nameErrMsg (((trimChars ln).drop 16).take ((trimChars ln).length - 21)))
        (some (ptr + 1))) := by
  have hne := matchStatement_some_ne_nil hm
  simp [compileLoop, List.isEmpty_iff, hne, hm, hv]

/-- Step: a `Let` line whose name is fresh adds it to the scope and pushes
a `Let` instruction. -/
theorem compileLoop_let_new {ln : List Char} {scope : Scope}
    (hm : matchStatement (trimChars ln) = some .Let)
    (hv : scope.has_var
      (((trimChars ln).drop 16).take ((trimChars ln).length - 21)) = false)
    (lex : Lexer) (rest : List (List Char)) (ptr : Nat) :
    compileLoop lex (ln :: rest) ptr scope =
      (compileLoop lex rest (ptr + 1)
        (scope.add_var (((trimChars ln).drop 16).take ((trimChars ln).length - 21)))).map
        (fun tail => (ptr + 1,
          Instruction.Let (((trimChars ln).drop 16).take ((trimChars ln).length - 21))) :: tail) := by
  have hne := matchStatement_some_ne_nil hm
  simp [compileLoop, List.isEmpty_iff, hne, hm, hv]

/-- Step: an `Assign` line with a space in the remainder and a lexing
expression pushes a `Set` instruction; the scope is not consulted. -/
theorem compileLoop_assign_ok {ln : List Char} {index : Nat} {tokens : List Token}
    {lex : Lexer} {scope : Scope}
    (hm : matchStatement (trimChars ln) = some .Assign)
    (hfs : findSpace ((trimChars ln).drop 17) = some index)
    (hlex : lex (((trimChars ln).drop 17).drop (index + 1)) scope = .ok tokens)
    (rest : List (List Char)) (ptr : Nat) :
    compileLoop lex (ln :: rest) ptr scope =
      (compileLoop lex rest (ptr + 1) scope).map
        (fun tail => (ptr + 1,
          Instruction.Set (trimChars (((trimChars ln).drop 17).take index)) tokens) :: tail) := by
  have hne := matchStatement_some_ne_nil hm
  rw [List.drop_drop] at hlex
  simp [compileLoop, List.isEmpty_iff, hne, hm, hfs, hlex, wrapCheck]

/-- Step: an `Assign` line whose expression fails to lex propagates the
lexer's error wrapped in one traceback frame. -/
theorem compileLoop_assign_err {ln : List Char} {index : Nat} {e : Error}
    {lex : Lexer} {scope : Scope}
    (hm : matchStatement (trimChars ln) = some .Assign)
    (hfs : findSpace ((trimChars ln).drop 17) = some index)
    (hlex : lex (((trimChars ln).drop 17).drop (index + 1)) scope = .error e)
    (rest : List (List Char)) (ptr : Nat) :
    compileLoop lex (ln :: rest) ptr scope =
      .error (e.withTraceback (some (ptr + 1))) := by
  have hne := matchStatement_some_ne_nil hm
  rw [List.drop_drop] at hlex
  simp [compileLoop, List.isEmpty_iff, hne, hm, hfs, hlex, wrapCheck]

/-- Step: an `Assign` line whose remainder holds no space raises
`SyntaxError` (the defensive branch). -/
theorem compileLoop_assign_nospace {ln : List Char}
    {lex : Lexer} {scope : Scope}
    (hm : matchStatement (trimChars ln) = some .Assign)
    (hfs : findSpace ((trimChars ln).drop 17) = none)
    (rest : List (List Char)) (ptr : Nat) :
    compileLoop lex (ln :: rest) ptr scope =
      .error (Error.new .SyntaxError illegalMsg (some (ptr + 1))) := by
  have hne := matchStatement_some_ne_nil hm
  simp [compileLoop, List.isEmpty_iff, hne, hm, hfs]

/-- The 1-based numbers of the lines that trim to something non-empty, for
a cursor starting at `ptr`. -/
def nonBlankNumbersFrom (ptr : Nat) : List (List Char) → List Nat
  | [] => []
  | ln :: rest =>
    if (trimChars ln).isEmpty then nonBlankNumbersFrom (ptr + 1) rest
    else (ptr + 1) :: nonBlankNumbersFrom (ptr + 1) rest

/-- There is one non-blank line number per non-blank line. -/
theorem nonBlankNumbersFrom_length (ptr : Nat) (ls : List (List Char)) :
    (nonBlankNumbersFrom ptr ls).length = ls.countP (fun l => !(trimChars l).isEmpty) := by
  induction ls generalizing ptr with
  | nil => simp [nonBlankNumbersFrom]
  | cons ln rest ih =>
    cases hb : (trimChars ln).isEmpty <;>
      simp [nonBlankNumbersFrom, List.countP_cons, hb, ih]

/-- Loop invariant: a successful run of the compilation loop emits exactly
one instruction per non-blank line, in order, each carrying that line's
1-based number, and emits no `End()` instruction itself. -/
theorem compileLoop_ok_spec {lex : Lexer} :
    ∀ (lines : List (List Char)) (ptr : Nat) (scope : Scope)
      (res : List (Nat × Instruction)),
      compileLoop lex lines ptr scope = .ok res →
      res.map Prod.fst = nonBlankNumbersFrom ptr lines ∧
      ∀ p ∈ res, p.2 ≠ Instruction.End := by
  intro lines
  induction lines with
  | nil =>
    intro ptr scope res h
    simp only [compileLoop, Except.ok.injEq] at h
    subst h
    simp [nonBlankNumbersFrom]
  | cons ln rest ih =>
    intro ptr scope res h
    cases hb : trimChars ln with
    | nil =>
      rw [compileLoop_blank hb lex rest ptr scope] at h
      obtain ⟨h1, h2⟩ := ih (ptr + 1) scope res h
      exact ⟨by simp [nonBlankNumbersFrom, hb, h1], h2⟩
    | cons c cs =>
      have hne : trimChars ln ≠ [] := by simp [hb]
      have hbe : (trimChars ln).isEmpty = false := by simp [List.isEmpty_iff, hne]
      cases hm : matchStatement (trimChars ln) with
      | none =>
        rw [compileLoop_illegal hm hne lex rest ptr scope] at h
        cases h
      | some st =>
        cases st with
        | Say =>
          cases hl : lex ((trimChars ln).drop 16) scope with
          | error e =>
            rw [compileLoop_say_err hm hl rest ptr] at h
            cases h
          | ok tokens =>
            rw [compileLoop_say_ok hm hl rest ptr, except_map_eq_ok] at h
            obtain ⟨tail, htail, rfl⟩ := h
            obtain ⟨h1, h2⟩ := ih (ptr + 1) scope tail htail
            refine ⟨by simp [nonBlankNumbersFrom, hbe, h1], ?_⟩
            intro p hp
            rcases List.mem_cons.mp hp with hp | hp
            · subst hp; simp
            · exact h2 p hp
        | Let =>
          cases hv : scope.has_var (((trimChars ln).drop 16).take ((trimChars ln).length - 21)) with
          | true =>
            rw [compileLoop_let_dup hm hv lex rest ptr] at h
            cases h
          | false =>
            rw [compileLoop_let_new hm hv lex rest ptr, except_map_eq_ok] at h
            obtain ⟨tail, htail, rfl⟩ := h
            obtain ⟨h1, h2⟩ := ih (ptr + 1) _ tail htail
            refine ⟨by simp [nonBlankNumbersFrom, hbe, h1], ?_⟩
            intro p hp
            rcases List.mem_cons.mp hp with hp | hp
            · subst hp; simp
            · exact h2 p hp
        | Assign =>
          cases hfs : findSpace ((trimChars ln).drop 17) with
          | none =>
            rw [compileLoop_assign_nospace hm hfs rest ptr] at h
            cases h
          | some index =>
            cases hl : lex (((trimChars ln).drop 17).drop (index + 1)) scope with
            | error e =>
              rw [compileLoop_assign_err hm hfs hl rest ptr] at h
              cases h
            | ok tokens =>
              rw [compileLoop_assign_ok hm hfs hl rest ptr, except_map_eq_ok] at h
              obtain ⟨tail, htail, rfl⟩ := h
              obtain ⟨h1, h2⟩ := ih (ptr + 1) scope tail htail
              refine ⟨by simp [nonBlankNumbersFrom, hbe, h1], ?_⟩
              intro p hp
              rcases List.mem_cons.mp hp with hp | hp
              · subst hp; simp
              · exact h2 p hp

/-- The splitting loop on a terminator-free tail: everything joins the
pending segment. -/
theorem splitLinesAux_no_term (a : List Char) (cur : List Char)
    (ha : ∀ c ∈ a, isLineTerm c = false) :
    splitLinesAux cur a = [cur.reverse ++ a] := by
  induction a generalizing cur with
  | nil => simp [splitLinesAux]
  | cons c rest ih =>
    have hc : isLineTerm c = false := ha c (by simp)
    simp [splitLinesAux, hc, ih (c :: cur) (fun x hx => ha x (by simp [hx]))]

/-- The splitting loop at the first terminator character: the pending
segment is closed and the loop restarts on what follows. -/
theorem splitLinesAux_term (a b : List Char) (t : Char) (cur : List Char)
    (ht : isLineTerm t = true) (ha : ∀ c ∈ a, isLineTerm c = false) :
    splitLinesAux cur (a ++ t :: b) = (cur.reverse ++ a) :: splitLinesAux [] b := by
  induction a generalizing cur with
  | nil => simp [splitLinesAux, ht]
  | cons c rest ih =>
    have hc : isLineTerm c = false := ha c (by simp)
    simp [splitLinesAux, hc, ih (c :: cur) (fun x hx => ha x (by simp [hx]))]

/-! Claim theorems. -/

/-- C1: for every input on which `compile` succeeds, the instruction list
is exactly one instruction per line whose trimmed text is non-empty plus
one trailing `End()`, and, reading off the first components, the k-th
instruction carries the exact 1-based number of the k-th non-blank source
line, with the final `0` belonging to the sentinel. -/
theorem compile_ok_length_and_line_numbers (lex : Lexer) (txt : List Char)
    (res : List (Nat × Instruction)) (h : compile lex txt = .ok res) :
    res.length = (splitLines txt).countP (fun l => !(trimChars l).isEmpty) + 1 ∧
    res.map Prod.fst = nonBlankNumbersFrom 0 (splitLines txt) ++ [0] := by
  unfold compile at h
  rw [except_map_eq_ok] at h
  obtain ⟨compiled, hc, rfl⟩ := h
  obtain ⟨h1, -⟩ := compileLoop_ok_spec (splitLines txt) 0 Scope.new compiled hc
  have hlen : compiled.length = (splitLines txt).countP (fun l => !(trimChars l).isEmpty) := by
    have := congrArg List.length h1
    simpa [nonBlankNumbersFrom_length] using this
  exact ⟨by simp [hlen], by simp [h1]⟩

/-- Demonstration input for C1: a `Say` line, a blank line, a `Let` line. -/
def demoTxt1 : List Char := "Never gonna say hi\n\nNever gonna let x down".toList

/-- The compiled output of `demoTxt1` under `demoLex`. -/
def demoOut1 : List (Nat × Instruction) :=
  [(1, .Put [⟨"hi".toList⟩]), (3, .Let "x".toList), (0, .End)]

/-- C1 witness: the main theorem applied to a concrete successful
compilation whose blank middle line produces no instruction and shifts no
line number. -/
theorem compile_ok_length_and_line_numbers_witness :
    compile demoLex demoTxt1 = .ok demoOut1 ∧
    (demoOut1.length = (splitLines demoTxt1).countP (fun l => !(trimChars l).isEmpty) + 1 ∧
     demoOut1.map Prod.fst = nonBlankNumbersFrom 0 (splitLines demoTxt1) ++ [0]) :=
  ⟨rfl, compile_ok_length_and_line_numbers demoLex demoTxt1 demoOut1 rfl⟩

/-- C2: for every input text and every lexer, `compile` returns either one
error value or a success list whose last element is `(0, End())` and in
which `End()` occurs exactly once; the `Except` result type carries no
third outcome and no partial list alongside an error. -/
theorem compile_total_shape (lex : Lexer) (txt : List Char) :
    (∃ e, compile lex txt = .error e) ∨
    (∃ res, compile lex txt = .ok res ∧
      res.getLast? = some (0, Instruction.End) ∧
      res.countP (fun p => p.2 == Instruction.End) = 1) := by
  cases h : compile lex txt with
  | error e => exact .inl ⟨e, rfl⟩
  | ok res =>
    have h' := h
    unfold compile at h'
    rw [except_map_eq_ok] at h'
    obtain ⟨compiled, hc, hres⟩ := h'
    obtain ⟨-, h2⟩ := compileLoop_ok_spec _ _ _ _ hc
    subst hres
    refine .inr ⟨_, rfl, List.getLast?_concat _, ?_⟩
    rw [List.countP_append,
      List.countP_eq_zero.mpr (fun p hp => by simpa using h2 p hp)]
    simp [List.countP_cons]

/-- C3 counterexample: the splitter does not treat a carriage-return plus
line-feed pair as a single terminator; `"a\r\nb"` splits into three
segments (with an empty one in the middle) while `"a\nb"` splits into
two. -/
theorem splitLines_crlf_counterexample :
    splitLines "a\r\nb".toList ≠ splitLines "a\nb".toList ∧
    splitLines "a\r\nb".toList = ["a".toList, [], "b".toList] := by
  constructor
  · decide
  · decide

/-- C3 amended: the splitter treats every individual `'\r'` and every
individual `'\n'` character as a terminator, producing one segment per
terminator (so a CRLF pair yields an extra empty segment between its two
characters) plus one final segment after the last terminator, even if
empty. -/
theorem splitLines_each_terminator (a b : List Char) (t : Char)
    (ht : isLineTerm t = true) (ha : ∀ c ∈ a, isLineTerm c = false) :
    splitLines (a ++ t :: b) = a :: splitLines b ∧ splitLines a = [a] := by
  constructor
  · unfold splitLines
    rw [splitLinesAux_term a b t [] ht ha]
    simp
  · unfold splitLines
    rw [splitLinesAux_no_term a [] ha]
    simp

/-- C3 witness: the amended splitting law applied to a concrete text. -/
theorem splitLines_each_terminator_witness :
    isLineTerm '\n' = true ∧ (∀ c ∈ "ab".toList, isLineTerm c = false) ∧
    (splitLines ("ab".toList ++ '\n' :: "c".toList) =
        "ab".toList :: splitLines "c".toList ∧
      splitLines "ab".toList = ["ab".toList]) :=
  ⟨by decide, by decide,
    splitLines_each_terminator "ab".toList "c".toList '\n' (by decide) (by decide)⟩

/-- C4: the classifier tests the three whole-line anchored grammars in the
fixed order `Say`, `Let`, `Assign` and returns the first that matches the
entire line (or no match); each grammar holds exactly on the decompositions
the spec describes.  Being a Lean function of `s` alone, it is
deterministic and total. -/
theorem match_statement_order_and_grammars (s : List Char) :
    (matchStatement s =
      if Statement.Say.matches s then some Statement.Say
      else if Statement.Let.matches s then some Statement.Let
      else if Statement.Assign.matches s then some Statement.Assign
      else none) ∧
    (Statement.Say.matches s = true ↔
      ∃ r, s = sayPre ++ r ∧ r ≠ [] ∧ ∀ c ∈ r, c ≠ '\n') ∧
    (Statement.Let.matches s = true ↔
      ∃ w, s = letPre ++ w ++ letSuf ∧ w ≠ [] ∧ ∀ c ∈ w, isWordChar c = true) ∧
    (Statement.Assign.matches s = true ↔
      ∃ w r, s = givePre ++ w ++ ' ' :: r ∧ w ≠ [] ∧
        (∀ c ∈ w, isWordChar c = true) ∧ r ≠ [] ∧ ∀ c ∈ r, c ≠ '\n') :=
  ⟨by rw [matchStatement_eq]; rfl, matchesSay_iff, matchesLet_iff, matchesAssign_iff⟩

/-- C5: a `Let` line's extracted name is checked against the scope: a
duplicate raises `NameError` with the exact message at the current 1-based
line and nothing further is produced, a fresh name is added to the scope
and `(lineNo, Let(name))` appended; consequently two identical
`"Never gonna let x down"` lines fail with `NameError` attributed to
line 2 (whatever the lexer, which a `Let` line never invokes). -/
theorem compile_let_scope_check (lex : Lexer) (ln : List Char)
    (rest : List (List Char)) (ptr : Nat) (scope : Scope)
    (hm : matchStatement (trimChars ln) = some Statement.Let) :
    (scope.has_var (((trimChars ln).drop 16).take ((trimChars ln).length - 21)) = true →
      compileLoop lex (ln :: rest) ptr scope =
        .error (Error.new .NameError
          (nameErrMsg (((trimChars ln).drop 16).take ((trimChars ln).length - 21)))
          (some (ptr + 1)))) ∧
    (scope.has_var (((trimChars ln).drop 16).take ((trimChars ln).length - 21)) = false →
      compileLoop lex (ln :: rest) ptr scope =
        (compileLoop lex rest (ptr + 1)
          (scope.add_var (((trimChars ln).drop 16).take ((trimChars ln).length - 21)))).map
          (fun tail => (ptr + 1,
            Instruction.Let (((trimChars ln).drop 16).take ((trimChars ln).length - 21))) :: tail)) ∧
    compile lex "Never gonna let x down\nNever gonna let x down".toList =
      .error (Error.new .NameError (nameErrMsg "x".toList) (some 2)) :=
  ⟨fun hv => compileLoop_let_dup hm hv lex rest ptr,
   fun hv => compileLoop_let_new hm hv lex rest ptr,
   rfl⟩

/-- Demonstration `Let` line for the C5 witness. -/
def demoLetLn : List Char := "Never gonna let y down".toList

/-- C5 witness: the theorem applied to a concrete `Let` line compiled in
the empty scope. -/
theorem compile_let_scope_check_witness :
    matchStatement (trimChars demoLetLn) = some Statement.Let ∧
    ((Scope.new.has_var (((trimChars demoLetLn).drop 16).take ((trimChars demoLetLn).length - 21)) = true →
      compileLoop demoLex (demoLetLn :: []) 0 Scope.new =
        .error (Error.new .NameError
          (nameErrMsg (((trimChars demoLetLn).drop 16).take ((trimChars demoLetLn).length - 21)))
          (some (0 + 1)))) ∧
     (Scope.new.has_var (((trimChars demoLetLn).drop 16).take ((trimChars demoLetLn).length - 21)) = false →
      compileLoop demoLex (demoLetLn :: []) 0 Scope.new =
        (compileLoop demoLex [] (0 + 1)
          (Scope.new.add_var (((trimChars demoLetLn).drop 16).take ((trimChars demoLetLn).length - 21)))).map
          (fun tail => (0 + 1,
            Instruction.Let (((trimChars demoLetLn).drop 16).take ((trimChars demoLetLn).length - 21))) :: tail)) ∧
     compile demoLex "Never gonna let x down\nNever gonna let x down".toList =
       .error (Error.new .NameError (nameErrMsg "x".toList) (some 2))) :=
  ⟨by decide, compile_let_scope_check demoLex demoLetLn [] 0 Scope.new (by decide)⟩

/-- C6: an `Assign` line performs no declaration check: for an arbitrary
scope, with no hypothesis about the target name being in it, a lexing
expression compiles to `(lineNo, Set(name, tokens))`; in particular the
single undeclared-variable line `"Never gonna give x 5"` compiles
successfully. -/
theorem compile_assign_no_existence_check (lex : Lexer) (ln : List Char)
    (rest : List (List Char)) (ptr : Nat) (scope : Scope) (index : Nat)
    (tokens : List Token)
    (hm : matchStatement (trimChars ln) = some Statement.Assign)
    (hfs : findSpace ((trimChars ln).drop 17) = some index)
    (hlex : lex (((trimChars ln).drop 17).drop (index + 1)) scope = .ok tokens) :
    compileLoop lex (ln :: rest) ptr scope =
      (compileLoop lex rest (ptr + 1) scope).map
        (fun tail => (ptr + 1,
          Instruction.Set (trimChars (((trimChars ln).drop 17).take index)) tokens) :: tail) ∧
    compile demoLex "Never gonna give x 5".toList =
      .ok [(1, Instruction.Set "x".toList [⟨"5".toList⟩]), (0, Instruction.End)] :=
  ⟨compileLoop_assign_ok hm hfs hlex rest ptr, rfl⟩

/-- Demonstration `Assign` line for the C6 witness. -/
def demoGiveLn : List Char := "Never gonna give z 1".toList

/-- C6 witness: the theorem applied to a concrete `Assign` line in the
empty scope, where the target `z` was never declared. -/
theorem compile_assign_no_existence_check_witness :
    matchStatement (trimChars demoGiveLn) = some Statement.Assign ∧
    findSpace ((trimChars demoGiveLn).drop 17) = some 1 ∧
    demoLex (((trimChars demoGiveLn).drop 17).drop (1 + 1)) Scope.new = .ok [⟨"1".toList⟩] ∧
    (compileLoop demoLex (demoGiveLn :: []) 0 Scope.new =
      (compileLoop demoLex [] (0 + 1) Scope.new).map
        (fun tail => (0 + 1,
          Instruction.Set (trimChars (((trimChars demoGiveLn).drop 17).take 1)) [⟨"1".toList⟩]) :: tail) ∧
     compile demoLex "Never gonna give x 5".toList =
       .ok [(1, Instruction.Set "x".toList [⟨"5".toList⟩]), (0, Instruction.End)]) :=
  ⟨by decide, by decide, rfl,
    compile_assign_no_existence_check demoLex demoGiveLn [] 0 Scope.new 1
      [⟨"1".toList⟩] (by decide) (by decide) rfl⟩

/-- C7: an error coming back from the expression lexer is never returned
verbatim: in both the `Say` and the `Assign` synthesis the compiler stops
immediately with the error wrapped in exactly one extra traceback frame
holding the current 1-based line number (kind and message unchanged). -/
theorem lexer_error_wrapped_once (lex : Lexer) (ln : List Char)
    (rest : List (List Char)) (ptr : Nat) (scope : Scope) (e : Error) (index : Nat) :
    ((e.withTraceback (some (ptr + 1))).traceback = e.traceback ++ [ptr + 1] ∧
     (e.withTraceback (some (ptr + 1))).etype = e.etype ∧
     (e.withTraceback (some (ptr + 1))).msg = e.msg) ∧
    (matchStatement (trimChars ln) = some Statement.Say →
      lex ((trimChars ln).drop 16) scope = .error e →
      compileLoop lex (ln :: rest) ptr scope =
        .error (e.withTraceback (some (ptr + 1)))) ∧
    (matchStatement (trimChars ln) = some Statement.Assign →
      findSpace ((trimChars ln).drop 17) = some index →
      lex (((trimChars ln).drop 17).drop (index + 1)) scope = .error e →
      compileLoop lex (ln :: rest) ptr scope =
        .error (e.withTraceback (some (ptr + 1)))) :=
  ⟨⟨rfl, rfl, rfl⟩,
   fun hm hl => compileLoop_say_err hm hl rest ptr,
   fun hm hfs hl => compileLoop_assign_err hm hfs hl rest ptr⟩

/-- C7 witness: a concrete `Say` line under the failing lexer stops with
the lexer's error wrapped in the frame for line 1. -/
theorem lexer_error_wrapped_once_witness :
    compileLoop failLex ("Never gonna say hi".toList :: []) 0 Scope.new =
      .error (Error.withTraceback
        ⟨.Other "lex".toList, "boom".toList, []⟩ (some (0 + 1))) :=
  (lexer_error_wrapped_once failLex "Never gonna say hi".toList [] 0 Scope.new
      ⟨.Other "lex".toList, "boom".toList, []⟩ 0).2.1 (by decide) rfl

/-- C8: on any line matching the `Assign` grammar, the remainder after the
17-character prefix contains a space (the first one sits right after the
maximal word-character run), so the defensive no-space `SyntaxError`
branch of the `Assign` synthesis is unreachable under that
precondition. -/
theorem assign_space_always_found (s : List Char)
    (h : Statement.Assign.matches s = true) :
    findSpace (s.drop 17) = some ((s.drop 17).takeWhile isWordChar).length := by
  obtain ⟨w, r, rfl, hne, hw, hrne, -⟩ := matchesAssign_iff.mp h
  have hdrop : ((givePre ++ w ++ ' ' :: r).drop 17 : List Char) = w ++ ' ' :: r := by
    rw [List.append_assoc, show (17 : Nat) = givePre.length from rfl, List.drop_left]
  rw [hdrop, (takeWhile_append_not w r ' ' hw (by decide)).1,
    findSpace_append_space hw]

/-- C8 witness: the space of a concrete `Assign` line is found at the
expected index. -/
theorem assign_space_always_found_witness :
    Statement.Assign.matches "Never gonna give x 5".toList = true ∧
    findSpace ("Never gonna give x 5".toList.drop 17) =
      some (("Never gonna give x 5".toList.drop 17).takeWhile isWordChar).length :=
  ⟨by decide, assign_space_always_found "Never gonna give x 5".toList (by decide)⟩

/-- C9: compilation is deterministic: two invocations of `compile` on the
same text with the same lexer yield structurally identical results — in
this pure embedding the whole compiler is a function of the text and the
lexer alone, with no other state. -/
theorem compile_deterministic (lex : Lexer) (txt : List Char)
    (r1 r2 : Except Error (List (Nat × Instruction)))
    (h1 : compile lex txt = r1) (h2 : compile lex txt = r2) : r1 = r2 :=
  h1.symm.trans h2

/-- C9 witness: two invocations on a concrete input agree. -/
theorem compile_deterministic_witness :
    (Except.ok [(1, Instruction.Set "x".toList [⟨"5".toList⟩]), (0, Instruction.End)] :
      Except Error (List (Nat × Instruction))) =
    .ok [(1, Instruction.Set "x".toList [⟨"5".toList⟩]), (0, Instruction.End)] :=
  compile_deterministic demoLex "Never gonna give x 5".toList _ _ rfl rfl

/-- C10: the slicing indices the synthesis steps use are in bounds on any
line matching the corresponding grammar (in this character-level model the
byte offsets of the ASCII prefixes and separators coincide with character
offsets, so index validity is the boundary condition): 16 for `Say`;
16 and `length - 5` with `16 ≤ length - 5` for `Let`; 17 and the found
space index (with its successor) for `Assign`. -/
theorem slicing_indices_in_bounds (s : List Char) (st : Statement)
    (h : st.matches s = true) :
    (match st with
     | .Say => 16 < s.length
     | .Let => 21 < s.length ∧ 16 ≤ s.length - 5
     | .Assign => 17 < s.length ∧
         ∃ i, findSpace (s.drop 17) = some i ∧ i < (s.drop 17).length) := by
  cases st with
  | Say =>
    obtain ⟨r, rfl, hne, -⟩ := matchesSay_iff.mp h
    have hr : 0 < r.length := List.length_pos.mpr hne
    rw [List.length_append]
    have h16 : sayPre.length = 16 := rfl
    omega
  | Let =>
    obtain ⟨w, rfl, hne, -⟩ := matchesLet_iff.mp h
    have hw : 0 < w.length := List.length_pos.mpr hne
    rw [List.length_append, List.length_append]
    have h16 : letPre.length = 16 := rfl
    have h5 : letSuf.length = 5 := rfl
    constructor <;> omega
  | Assign =>
    obtain ⟨w, r, rfl, hne, hw, hrne, -⟩ := matchesAssign_iff.mp h
    have hwl : 0 < w.length := List.length_pos.mpr hne
    have hdrop : ((givePre ++ w ++ ' ' :: r).drop 17 : List Char) = w ++ ' ' :: r := by
      rw [List.append_assoc, show (17 : Nat) = givePre.length from rfl, List.drop_left]
    have h17 : givePre.length = 17 := rfl
    constructor
    · rw [List.length_append, List.length_append, List.length_cons]
      omega
    · refine ⟨w.length, ?_, ?_⟩
      · rw [hdrop]
        exact findSpace_append_space hw
      · rw [hdrop, List.length_append, List.length_cons]
        omega

/-- C10 witness: bounds for a concrete `Assign` line. -/
theorem slicing_indices_in_bounds_witness :
    Statement.Assign.matches "Never gonna give x 5".toList = true ∧
    (17 < "Never gonna give x 5".toList.length ∧
      ∃ i, findSpace ("Never gonna give x 5".toList.drop 17) = some i ∧
        i < ("Never gonna give x 5".toList.drop 17).length) :=
  ⟨by decide,
    slicing_indices_in_bounds "Never gonna give x 5".toList .Assign (by decide)⟩

end Rickroll
